import Mathlib

/-!
Verification of the normal-sampling notebook
(`Comparsion of Normal Sampling Algorithms.ipynb`).

The notebook implements four generators of standard-normal variates from
uniform draws, plus a timing harness:

* Box-Mueller: `c = sqrt(-2*log(U1)); Z1 = c*cos(2*pi*U2); Z2 = c*sin(2*pi*U2)`.
* Acceptance-Rejection (Laplace proposal): a `while True` loop drawing
  `U1, U2, U3`, setting `X = -log(U1)`, testing
  `U2 <= exp(-0.5*((X-1)**2))`, and, only inside the branch `U3 <= 0.5`,
  negating `X` and `break`-ing out of the loop.
* Bray-Marsaglia polar method: a `while True` loop drawing `U1, U2` in
  `(-1,1)`, with `S = U1**2 + U2**2`, accepting when `S <= 1` and then
  computing `U1*sqrt(-2*log(S)/S)` and `U2*sqrt(-2*log(S)/S)`.
* Beasley-Springer-Moro inverse-CDF approximation with a central rational
  branch for `|U - 0.5| < 0.42` and a log-log polynomial tail branch.
* A harness dictionary `comp_efficiency` of four named elapsed times,
  sorted ascending by value into `comp_efficiency_sorted`.

Real-valued code is embedded over `ℝ` (Python `math.log`, which raises a
domain error on non-positive input, is modelled with `Option`/`Except`);
the harness bookkeeping is embedded computably, with elapsed times in `ℚ`.
-/

/-- One row of the timing table: algorithm name and elapsed seconds. -/
abbrev TimingRow : Type := String × ℚ

/-- The comparison `key=lambda x: x[1]` used by `sorted` on
`comp_efficiency.items()`: compare rows by their elapsed-time value. -/
def valueLe (p q : TimingRow) : Bool :=
  decide (p.2 ≤ q.2)

/-- The dictionary `comp_efficiency` after all four algorithm cells ran, in
the notebook's insertion order (Box-Mueller, then Acceptance-Rejection, then
Bray-Marsaglia, then Beasley-Springer-Moro), with the four elapsed times as
parameters. -/
def comp_efficiency (tBM tAR tPolar tBSM : ℚ) : List TimingRow :=
  [("Box-Mueller", tBM), ("Acceptance-Rejection", tAR),
   ("Bray-Marsaglia", tPolar), ("Beasley-Springer-Moro", tBSM)]

/-- `comp_efficiency_sorted = dict(sorted(comp_efficiency.items(), key=lambda x: x[1]))`:
the timing table sorted ascending by elapsed time (Python's `sorted` is a
stable mergesort, as is `List.mergeSort`). -/
def comp_efficiency_sorted (tBM tAR tPolar tBSM : ℚ) : List TimingRow :=
  (comp_efficiency tBM tAR tPolar tBSM).mergeSort valueLe

noncomputable section

/-- Box-Mueller body, from the notebook cell:
`c = sqrt(-2 * (np.log(U1)))`, `Z1 = c * cos((2 * pi) * U2)`,
`Z2 = c * sin((2 * pi) * U2)`. -/
def boxMuller (U1 U2 : ℝ) : ℝ × ℝ :=
  (Real.sqrt (-2 * Real.log U1) * Real.cos ((2 * Real.pi) * U2),
   Real.sqrt (-2 * Real.log U1) * Real.sin ((2 * Real.pi) * U2))

/-- Box-Mueller generator as stated by the spec (section 4.1):
`R = sqrt(-2·ln(U1)); Θ = 2π·U2; Z1 = R·cos(Θ); Z2 = R·sin(Θ)`.
This definition follows the spec's words, to be compared with `boxMuller`,
which is translated from the code. -/
def boxMullerSpecFormula (U1 U2 : ℝ) : ℝ × ℝ :=
  (Real.sqrt (-2 * Real.log U1) * Real.cos (2 * Real.pi * U2),
   Real.sqrt (-2 * Real.log U1) * Real.sin (2 * Real.pi * U2))

/-- One Box-Mueller invocation against the uniform source, modelled as a
stream of pending draws: it pulls `U1` and `U2` (exactly two draws) and
returns the pair together with the untouched remainder of the stream. -/
def boxMullerDraw (us : List ℝ) : Option ((ℝ × ℝ) × List ℝ) :=
  match us with
  | u1 :: u2 :: rest => some (boxMuller u1 u2, rest)
  | _ => none

/-- Python's `math.log`: defined on positive reals, raises a domain error
(`ValueError: math domain error`) on zero or negative input; the error is
modelled by `none`. -/
def mathLog (x : ℝ) : Option ℝ :=
  if 0 < x then some (Real.log x) else none

/-- One iteration of the Bray-Marsaglia `while True` body, from the cell:
`S = (U1 ** 2) + (U2 ** 2)`; `if S <= 1:` compute
`X = U1 * sqrt(-2 * log(S) / S)`, `Y = U2 * sqrt(-2 * log(S) / S)` and
`break`; otherwise fall through and loop again.
`.error ()` is the `math.log` domain fault, `.ok none` means the pair was
rejected and the loop restarts, `.ok (some (X, Y))` is an accepted pair. -/
def polarStep (U1 U2 : ℝ) : Except Unit (Option (ℝ × ℝ)) :=
  if U1 ^ 2 + U2 ^ 2 ≤ 1 then
    match mathLog (U1 ^ 2 + U2 ^ 2) with
    | none => Except.error ()
    | some l =>
      Except.ok (some (U1 * Real.sqrt (-2 * l / (U1 ^ 2 + U2 ^ 2)),
                       U2 * Real.sqrt (-2 * l / (U1 ^ 2 + U2 ^ 2))))
  else Except.ok none

/-- The Bray-Marsaglia `while True` loop over a stream of `(U1, U2)` pairs,
with fuel bounding the number of iterations: propagates a domain fault,
returns the first accepted pair, and keeps looping on rejection
(`.ok none` with fuel left over means the fuel ran out). -/
def polarLoop : ℕ → (ℕ → ℝ × ℝ) → Except Unit (Option (ℝ × ℝ))
  | 0, _ => Except.ok none
  | fuel + 1, us =>
    match polarStep (us 0).1 (us 0).2 with
    | Except.error e => Except.error e
    | Except.ok (some p) => Except.ok (some p)
    | Except.ok none => polarLoop fuel (fun i => us (i + 1))

/-- One iteration of the acceptance-rejection `while True` body, from the
cell: draw `(U1, U2, U3)`, set `X = -log(U1)`; only when
`U2 <= exp(-0.5 * ((X - 1) ** 2))` and then `U3 <= 0.5` does the code set
`X = -X` and `break`, emitting `-X`; in every other case (acceptance test
failed, or it passed but `U3 > 0.5`) there is no `break` and the loop
restarts, modelled by `none`. -/
def arAttempt (U1 U2 U3 : ℝ) : Option ℝ :=
  let X := -Real.log U1
  if U2 ≤ Real.exp (-0.5 * (X - 1) ^ 2) then
    if U3 ≤ 0.5 then some (-X) else none
  else none

/-- The acceptance-rejection `while True` loop over a stream of
`(U1, U2, U3)` triples, with fuel bounding the number of iterations:
returns the value emitted by the first attempt that `break`s. -/
def arLoop : ℕ → (ℕ → ℝ × ℝ × ℝ) → Option ℝ
  | 0, _ => none
  | fuel + 1, us =>
    match arAttempt (us 0).1 (us 0).2.1 (us 0).2.2 with
    | some x => some x
    | none => arLoop fuel (fun i => us (i + 1))

/-- Beasley-Springer-Moro constant `a0` (and likewise `a1`-`a3`, `b0`-`b3`,
`c0`-`c8` below), exactly as in the notebook's constants cell. -/
def a0 : ℝ := 2.50662823884

def a1 : ℝ := -18.61500062529

def a2 : ℝ := 41.39119773534

def a3 : ℝ := -25.44106049637

def b0 : ℝ := -8.47351093090

def b1 : ℝ := 23.08336743743

def b2 : ℝ := -21.06224101826

def b3 : ℝ := 3.13082909833

def c0 : ℝ := 0.3374754822726147

def c1 : ℝ := 0.9761690190917186

def c2 : ℝ := 0.1607979714918209

def c3 : ℝ := 0.0276438810333863

def c4 : ℝ := 0.0038405729373609

def c5 : ℝ := 0.0003951896511919

def c6 : ℝ := 0.0000321767881768

def c7 : ℝ := 0.0000002888167364

def c8 : ℝ := 0.0000003960315187

/-- Central-branch numerator polynomial of the Beasley-Springer-Moro
generator: `a0 + r * (a1 + r * (a2 + r * a3))`. -/
def bsmNum (r : ℝ) : ℝ :=
  a0 + r * (a1 + r * (a2 + r * a3))

/-- Central-branch denominator polynomial of the Beasley-Springer-Moro
generator: `1 + r * (b0 + r * (b1 + r * (b2 + r * b3)))`. -/
def bsmDen (r : ℝ) : ℝ :=
  1 + r * (b0 + r * (b1 + r * (b2 + r * b3)))

/-- Tail-branch polynomial of the Beasley-Springer-Moro generator:
`c0 + r * (c1 + r * (c2 + r * (c3 + r * (c4 + r * (c5 + r * (c6 + r * (c7 + r * c8)))))))`. -/
def bsmTailPoly (r : ℝ) : ℝ :=
  c0 + r * (c1 + r * (c2 + r * (c3 + r * (c4 + r * (c5 + r * (c6 + r * (c7 + r * c8)))))))

/-- `np.sign`: `1` on positives, `-1` on negatives, `0` at zero. -/
def npSign (y : ℝ) : ℝ :=
  if y > 0 then 1 else if y < 0 then -1 else 0

/-- The Beasley-Springer-Moro inverse-CDF body, from the cell: with
`Y = U - 0.5`, if `abs(Y) < 0.42` then `r = Y * Y` and
`X = Y * bsmNum r / bsmDen r`; otherwise `r = U`, replaced by `1 - U` when
`Y > 0`, then `r = log(-log(r))` and `X = bsmTailPoly r * np.sign(Y)`. -/
def bsm (U : ℝ) : ℝ :=
  if |U - 0.5| < 0.42 then
    (U - 0.5) * bsmNum ((U - 0.5) * (U - 0.5)) / bsmDen ((U - 0.5) * (U - 0.5))
  else
    bsmTailPoly (Real.log (-Real.log (if U - 0.5 > 0 then 1 - U else U))) *
      npSign (U - 0.5)

/-- The Box-Mueller timing loop `for i in range(int(N / 2))`: one
invocation per index, each consuming the pair of draws of its iteration. -/
def boxMullerRun (N : ℕ) (us : ℕ → ℝ × ℝ) : List (ℝ × ℝ) :=
  (List.range (N / 2)).map (fun i => boxMuller (us i).1 (us i).2)

/-- The Bray-Marsaglia timing loop `for i in range(int(N / 2))`: one
rejection-loop invocation per index, each running on its own draw stream. -/
def polarRun (N fuel : ℕ) (us : ℕ → ℕ → ℝ × ℝ) : List (Except Unit (Option (ℝ × ℝ))) :=
  (List.range (N / 2)).map (fun i => polarLoop fuel (us i))

/-- The Beasley-Springer-Moro timing loop `for i in range(N)`: one
invocation per index, each consuming one draw. -/
def bsmRun (N : ℕ) (us : ℕ → ℝ) : List ℝ :=
  (List.range N).map (fun i => bsm (us i))

/-- The acceptance-rejection timing loop `for i in range(N)`: one
rejection-loop invocation per index, each running on its own draw stream. -/
def arRun (N fuel : ℕ) (us : ℕ → ℕ → ℝ × ℝ × ℝ) : List (Option ℝ) :=
  (List.range N).map (fun i => arLoop fuel (us i))

end

/-- Claim C4: given two uniform draws `U1, U2`, the Box-Mueller generator
returns exactly the pair `(sqrt(-2 ln U1) cos(2π U2), sqrt(-2 ln U1) sin(2π U2))`
of the spec, consuming exactly the two draws and leaving the rest of the
uniform stream untouched. -/
theorem boxMuller_pair_from_two_draws (u1 u2 : ℝ) (rest : List ℝ) :
    boxMullerDraw (u1 :: u2 :: rest) = some (boxMullerSpecFormula u1 u2, rest) :=
  rfl

/-- Claim C6: after all four runs, sorting the timing table leaves a table
with exactly 4 entries, pairwise ascending in elapsed time, that is a
permutation of the unsorted table (so each algorithm's recorded elapsed
value is unchanged by the sorting step), and whose name tags are exactly
the four fixed algorithm names. -/
theorem comp_efficiency_sorted_spec (t1 t2 t3 t4 : ℚ) :
    (comp_efficiency_sorted t1 t2 t3 t4).length = 4 ∧
    (comp_efficiency_sorted t1 t2 t3 t4).Pairwise (fun p q => p.2 ≤ q.2) ∧
    (comp_efficiency_sorted t1 t2 t3 t4).Perm (comp_efficiency t1 t2 t3 t4) ∧
    ((comp_efficiency_sorted t1 t2 t3 t4).map Prod.fst).Perm
      ["Box-Mueller", "Acceptance-Rejection", "Bray-Marsaglia", "Beasley-Springer-Moro"] := by
  have hperm : (comp_efficiency_sorted t1 t2 t3 t4).Perm (comp_efficiency t1 t2 t3 t4) :=
    List.mergeSort_perm _ _
  refine ⟨?_, ?_, hperm, ?_⟩
  · rw [hperm.length_eq]
    rfl
  · have htrans : ∀ a b c : TimingRow, valueLe a b → valueLe b c → valueLe a c := by
      intro a b c hab hbc
      simp only [valueLe, decide_eq_true_eq] at hab hbc ⊢
      exact le_trans hab hbc
    have htotal : ∀ a b : TimingRow, valueLe a b || valueLe b a := by
      intro a b
      simp only [valueLe, Bool.or_eq_true, decide_eq_true_eq]
      exact le_total _ _
    have h := List.sorted_mergeSort htrans htotal (comp_efficiency t1 t2 t3 t4)
    exact h.imp fun hab => of_decide_eq_true hab
  · exact hperm.map Prod.fst

/-- Claim C7: for `U = 0.5` exactly, the Beasley-Springer-Moro generator
takes the central branch with `Y = 0` and outputs exactly `0`. -/
theorem bsm_at_half : bsm 0.5 = 0 := by
  unfold bsm
  rw [if_pos (by norm_num)]
  norm_num

/-- Claim C1 (counter-evidence): whenever the acceptance test passes but
`U3 > 0.5`, the implemented loop body does not emit anything (the `break`
sits inside the `U3 <= 0.5` branch), so the attempt restarts instead of
returning the un-negated `X` that the spec's step 5 prescribes. -/
theorem ar_accept_u3_high_restarts (U1 U2 U3 : ℝ)
    (hacc : U2 ≤ Real.exp (-0.5 * (-Real.log U1 - 1) ^ 2))
    (hu3 : 0.5 < U3) :
    arAttempt U1 U2 U3 = none := by
  simp only [arAttempt]
  rw [if_pos hacc, if_neg (not_le.2 hu3)]

/-- Witness for `ar_accept_u3_high_restarts` at `U1 = exp(-1)` (so `X = 1`),
`U2 = 0.5`, `U3 = 0.75`: the acceptance test passes, yet the code loops. -/
theorem ar_accept_u3_high_restarts_witness :
    arAttempt (Real.exp (-1)) 0.5 0.75 = none := by
  apply ar_accept_u3_high_restarts
  · have h : (-0.5 : ℝ) * (-Real.log (Real.exp (-1)) - 1) ^ 2 = 0 := by
      rw [Real.log_exp]
      ring
    rw [h, Real.exp_zero]
    norm_num
  · norm_num

/-- Claim C2 (counter-evidence): a drawn pair with `S = U1^2 + U2^2 = 0`
is not rejected by the implemented guard `S <= 1`; instead the body reaches
`log(S)` and hits the `math.log` domain fault. -/
theorem polar_zero_sum_squares_faults (U1 U2 : ℝ) (h : U1 ^ 2 + U2 ^ 2 = 0) :
    polarStep U1 U2 = Except.error () := by
  unfold polarStep mathLog
  rw [h]
  norm_num

/-- Witness for `polar_zero_sum_squares_faults` at the drawable pair
`(U1, U2) = (0, 0)`. -/
theorem polar_zero_sum_squares_faults_witness :
    polarStep 0 0 = Except.error () :=
  polar_zero_sum_squares_faults 0 0 (by norm_num)

/-- Claim C5: for a positive target count `N`, the harness runs each
pair-producing generator exactly `N / 2` times (natural floor division,
so `2 * (N / 2) = N - N % 2` variates, discarding an odd remainder) and
each single-output generator exactly `N` times. -/
theorem harness_call_counts (N fuel : ℕ) (hN : 0 < N)
    (us₁ : ℕ → ℝ × ℝ) (us₂ : ℕ → ℕ → ℝ × ℝ) (us₃ : ℕ → ℝ) (us₄ : ℕ → ℕ → ℝ × ℝ × ℝ) :
    (boxMullerRun N us₁).length = N / 2 ∧
    (polarRun N fuel us₂).length = N / 2 ∧
    2 * (N / 2) = N - N % 2 ∧
    (bsmRun N us₃).length = N ∧
    (arRun N fuel us₄).length = N :=
  ⟨by simp [boxMullerRun], by simp [polarRun], by omega, by simp [bsmRun], by simp [arRun]⟩

/-- Witness for `harness_call_counts` at `N = 5` with constant draw
streams: 2 invocations (4 variates) for the pair generators, 5 for the
single-output generators. -/
theorem harness_call_counts_witness :
    (boxMullerRun 5 (fun _ => (1, 1))).length = 5 / 2 ∧
    (polarRun 5 0 (fun _ _ => (1, 1))).length = 5 / 2 ∧
    2 * (5 / 2) = 5 - 5 % 2 ∧
    (bsmRun 5 (fun _ => 1)).length = 5 ∧
    (arRun 5 0 (fun _ _ => (1, 1, 1))).length = 5 :=
  harness_call_counts 5 0 (by norm_num) _ _ _ _

/-- Helper: an acceptance-rejection attempt emits a value only from the
branch where the acceptance test passed and `U3 ≤ 0.5`; the emitted value
is `-X = log U1`. -/
theorem arAttempt_eq_some (U1 U2 U3 x : ℝ) (h : arAttempt U1 U2 U3 = some x) :
    x = Real.log U1 ∧ U2 ≤ Real.exp (-0.5 * (-Real.log U1 - 1) ^ 2) := by
  simp only [arAttempt] at h
  by_cases hacc : U2 ≤ Real.exp (-0.5 * (-Real.log U1 - 1) ^ 2)
  · rw [if_pos hacc] at h
    by_cases hu3 : U3 ≤ 0.5
    · rw [if_pos hu3] at h
      have hx := Option.some.inj h
      rw [neg_neg] at hx
      exact ⟨hx.symm, hacc⟩
    · rw [if_neg hu3] at h
      exact absurd h (by simp)
  · rw [if_neg hacc] at h
    exact absurd h (by simp)

/-- Claim C8: any variate `x` emitted by an acceptance-rejection attempt
with draws `U1 ∈ (0,1)` satisfies the acceptance inequality
`U2 ≤ exp(-0.5*(|x|-1)^2)` for the `U2` draw of that attempt; no value is
emitted from an attempt whose acceptance test failed. -/
theorem ar_emitted_acceptance (U1 U2 U3 x : ℝ) (h0 : 0 < U1) (h1 : U1 < 1)
    (h : arAttempt U1 U2 U3 = some x) :
    U2 ≤ Real.exp (-0.5 * (|x| - 1) ^ 2) := by
  obtain ⟨hx, hacc⟩ := arAttempt_eq_some U1 U2 U3 x h
  have hlog : Real.log U1 ≤ 0 := Real.log_nonpos h0.le h1.le
  have habs : |x| = -Real.log U1 := by
    rw [hx, abs_of_nonpos hlog]
  rw [habs]
  exact hacc

/-- Witness for `ar_emitted_acceptance` at `U1 = exp(-1)`, `U2 = 0.5`,
`U3 = 0.25`, which emits `x = -1`. -/
theorem ar_emitted_acceptance_witness :
    (0.5 : ℝ) ≤ Real.exp (-0.5 * (|(-1 : ℝ)| - 1) ^ 2) := by
  have hatt : arAttempt (Real.exp (-1)) 0.5 0.25 = some (-1) := by
    have hacc : (0.5 : ℝ) ≤ Real.exp (-0.5 * (-Real.log (Real.exp (-1)) - 1) ^ 2) := by
      have he : (-0.5 : ℝ) * (-Real.log (Real.exp (-1)) - 1) ^ 2 = 0 := by
        rw [Real.log_exp]
        ring
      rw [he, Real.exp_zero]
      norm_num
    simp only [arAttempt]
    rw [if_pos hacc, if_pos (by norm_num : (0.25 : ℝ) ≤ 0.5), Real.log_exp]
    norm_num
  exact ar_emitted_acceptance (Real.exp (-1)) 0.5 0.25 (-1) (Real.exp_pos _)
    (Real.exp_lt_one_iff.2 (by norm_num)) hatt

/-- Claim C9: with `U1` draws in `(0,1]`, every variate the implemented
acceptance-rejection loop emits is non-positive, and strictly negative when
every `U1` draw is strictly below `1`: the loop only terminates through the
branch that negates `X = -log(U1) ≥ 0`. -/
theorem ar_loop_emits_nonpositive (fuel : ℕ) (us : ℕ → ℝ × ℝ × ℝ) (x : ℝ)
    (hdraw : ∀ i, 0 < (us i).1 ∧ (us i).1 ≤ 1)
    (h : arLoop fuel us = some x) :
    x ≤ 0 ∧ ((∀ i, (us i).1 < 1) → x < 0) := by
  induction fuel generalizing us with
  | zero => simp [arLoop] at h
  | succ n ih =>
    simp only [arLoop] at h
    cases hstep : arAttempt (us 0).1 (us 0).2.1 (us 0).2.2 with
    | some y =>
      rw [hstep] at h
      have hxy : y = x := Option.some.inj h
      obtain ⟨hx, -⟩ := arAttempt_eq_some _ _ _ _ hstep
      have h0 := (hdraw 0).1
      have h1 := (hdraw 0).2
      subst hxy
      refine ⟨?_, ?_⟩
      · rw [hx]
        exact Real.log_nonpos h0.le h1
      · intro hlt
        rw [hx]
        exact Real.log_neg h0 (hlt 0)
    | none =>
      rw [hstep] at h
      have hrest := ih (fun i => us (i + 1)) (fun i => hdraw (i + 1)) h
      exact ⟨hrest.1, fun hlt => hrest.2 fun i => hlt (i + 1)⟩

/-- Witness for `ar_loop_emits_nonpositive` on the constant stream
`(exp(-2), 0.5, 0.25)` with fuel 1, which emits `x = -2`. -/
theorem ar_loop_emits_nonpositive_witness :
    (-2 : ℝ) ≤ 0 ∧ (-2 : ℝ) < 0 := by
  have hatt : arAttempt (Real.exp (-2)) 0.5 0.25 = some (-2) := by
    have hacc : (0.5 : ℝ) ≤ Real.exp (-0.5 * (-Real.log (Real.exp (-2)) - 1) ^ 2) := by
      have he : (-0.5 : ℝ) * (-Real.log (Real.exp (-2)) - 1) ^ 2 = -0.5 := by
        rw [Real.log_exp]
        ring
      rw [he]
      linarith [Real.add_one_le_exp (-0.5 : ℝ)]
    simp only [arAttempt]
    rw [if_pos hacc, if_pos (by norm_num : (0.25 : ℝ) ≤ 0.5), Real.log_exp]
    norm_num
  have hrun : arLoop 1 (fun _ => (Real.exp (-2), 0.5, 0.25)) = some (-2) := by
    simp [arLoop, hatt]
  have hdraw : ∀ i : ℕ, 0 < ((fun _ : ℕ => (Real.exp (-2), (0.5 : ℝ), (0.25 : ℝ))) i).1 ∧
      ((fun _ : ℕ => (Real.exp (-2), (0.5 : ℝ), (0.25 : ℝ))) i).1 ≤ 1 := by
    intro i
    exact ⟨Real.exp_pos _, Real.exp_le_one_iff.2 (by norm_num)⟩
  have h := ar_loop_emits_nonpositive 1 (fun _ => (Real.exp (-2), 0.5, 0.25)) (-2) hdraw hrun
  exact ⟨h.1, h.2 fun i => Real.exp_lt_one_iff.2 (by norm_num)⟩

/-- Claim C3: for `U` in `(0,1)`, the Beasley-Springer-Moro generator
satisfies the symmetry law `bsm U = -bsm (1 - U)`, across both the central
branch (`|U - 0.5| < 0.42`) and the tail branch (`|U - 0.5| ≥ 0.42`). -/
theorem bsm_symmetry (U : ℝ) (h0 : 0 < U) (h1 : U < 1) :
    bsm U = -bsm (1 - U) := by
  have hY : (1 : ℝ) - U - 0.5 = -(U - 0.5) := by ring
  unfold bsm
  rw [hY, abs_neg]
  by_cases h : |U - 0.5| < 0.42
  · rw [if_pos h, if_pos h]
    have hr : -(U - 0.5) * -(U - 0.5) = (U - 0.5) * (U - 0.5) := by ring
    rw [hr]
    ring
  · rw [if_neg h, if_neg h]
    rcases lt_trichotomy (U - 0.5) 0 with hlt | heq | hgt
    · have hpos : -(U - 0.5) > 0 := by linarith
      rw [if_neg (by linarith : ¬U - 0.5 > 0), if_pos hpos]
      have hU : 1 - (1 - U) = U := by ring
      rw [hU]
      unfold npSign
      rw [if_neg (by linarith : ¬U - 0.5 > 0), if_pos hlt, if_pos hpos]
      ring
    · exfalso
      apply h
      rw [heq]
      norm_num
    · have hneg : ¬(-(U - 0.5) > 0) := by linarith
      rw [if_pos hgt, if_neg hneg]
      unfold npSign
      rw [if_pos hgt, if_neg hneg, if_pos (by linarith : -(U - 0.5) < 0)]
      ring

/-- Witness for `bsm_symmetry` at `U = 0.25`. -/
theorem bsm_symmetry_witness :
    0 < (0.25 : ℝ) ∧ (0.25 : ℝ) < 1 ∧ bsm 0.25 = -bsm (1 - 0.25) :=
  ⟨by norm_num, by norm_num, bsm_symmetry 0.25 (by norm_num) (by norm_num)⟩

/-- Claim C10: for every `U` with `|U - 0.5| < 0.42` (so
`r = (U-0.5)^2 < 0.1764`), the central-branch denominator
`1 + r*(b0 + r*(b1 + r*(b2 + r*b3)))` with the notebook's constants is
strictly positive, so the central-branch division is well-defined. -/
theorem bsm_den_pos (U : ℝ) (h : |U - 0.5| < 0.42) :
    0 < bsmDen ((U - 0.5) * (U - 0.5)) := by
  have h0 : 0 ≤ (U - 0.5) * (U - 0.5) := mul_self_nonneg _
  have h1 : (U - 0.5) * (U - 0.5) < 0.1764 := by
    have habs : |U - 0.5| * |U - 0.5| = (U - 0.5) * (U - 0.5) := abs_mul_abs_self _
    have hlt : |U - 0.5| * |U - 0.5| < 0.42 * 0.42 :=
      mul_self_lt_mul_self (abs_nonneg _) h
    rw [habs] at hlt
    linarith
  set r := (U - 0.5) * (U - 0.5) with hr
  unfold bsmDen b0 b1 b2 b3
  nlinarith [sq_nonneg (38.73597624 * r - 8.4735109309),
    mul_nonneg (mul_nonneg (sub_nonneg.2 h1.le) h0) h0,
    sq_nonneg (r * r), mul_nonneg h0 h0, h0, h1]

/-- Witness for `bsm_den_pos` at `U = 0.5`, where the denominator is `1`. -/
theorem bsm_den_pos_witness :
    |(0.5 : ℝ) - 0.5| < 0.42 ∧ 0 < bsmDen (((0.5 : ℝ) - 0.5) * ((0.5 : ℝ) - 0.5)) :=
  ⟨by norm_num, bsm_den_pos 0.5 (by norm_num)⟩
